import Mathlib

/-!
Verification of the DocFu content-preparation pipeline.

This file gives a shallow embedding, in Lean 4, of the pieces of the DocFu
source that the specification's claims talk about:

* `scripts/lib/syntax.js`  — format detection (`detectSyntax`, `usesMarkdocSyntax`,
  `getTargetFormat`, `getTargetExtension`);
* `scripts/lib/jsx.js`     — JSX component detection (`hasJSXSyntax`);
* `scripts/lib/patterns.js`— extension classes and `convertExtension`;
* `scripts/lib/md2mdoc.js` — GitHub-alert to aside conversion (`ALERT_TYPES`,
  `convertGitHubAlerts`);
* `scripts/lib/frontmatter.js` — frontmatter merging (`mergeFrontmatter`,
  `mergeFrontmatterWithHierarchicalConfig`, `updateContentFrontmatter`, `getTitle`);
* `scripts/lib/config.js`  — config discovery and per-file lookup (`discover`,
  `getApplicable`, `deepMerge`);
* `scripts/lib/prepare.js` — the processing loop (README renaming, exclusion,
  preflight safety checks, CSS discovery, slug computation).

Strings are modelled on top of `List Char` (each JavaScript string operation the
source uses is re-implemented below on the character list); JavaScript objects
are modelled as insertion-ordered association lists (`Obj`), matching the
enumeration-order semantics of `for (const key in o)` and object spread.
-/

namespace Docfu

/-! ## Character and string utilities (models of the JS primitives in use) -/

/-- Model of JavaScript `\s` restricted to the whitespace characters that can
actually occur in the inputs handled here (space, tab, CR, LF, FF, VT). -/
def jsWs (c : Char) : Bool :=
  c == ' ' || c == '\t' || c == '\r' || c == '\n' || c == '\x0b' || c == '\x0c'

/-- ASCII uppercase test, as used by the source's `[A-Z]` character classes. -/
def isUpperAscii (c : Char) : Bool := 'A' ≤ c && c ≤ 'Z'

/-- ASCII lowercase test. -/
def isLowerAscii (c : Char) : Bool := 'a' ≤ c && c ≤ 'z'

/-- The `[A-Za-z0-9]` character class. -/
def isAlnumAscii (c : Char) : Bool :=
  isUpperAscii c || isLowerAscii c || ('0' ≤ c && c ≤ '9')

/-- The `\w` character class (`[A-Za-z0-9_]`). -/
def isWordChar (c : Char) : Bool := isAlnumAscii c || c == '_'

/-- ASCII lower-casing of one character, the behaviour of
`String.prototype.toLowerCase` on the ASCII inputs modelled here. -/
def lowerChar (c : Char) : Char :=
  if isUpperAscii c then Char.ofNat (c.toNat + 32) else c

/-- ASCII upper-casing of one character. -/
def upperChar (c : Char) : Char :=
  if isLowerAscii c then Char.ofNat (c.toNat - 32) else c

/-- Lower-case a character list. -/
def toLowerList (l : List Char) : List Char := l.map lowerChar

/-- Model of `s.toLowerCase()`. -/
def toLowerStr (s : String) : String := String.mk (toLowerList s.data)

/-- Model of `s.toUpperCase()`. -/
def toUpperStr (s : String) : String := String.mk (s.data.map upperChar)

/-- Suffix test on character lists: the reversed suffix is compared with the
front of the reversed list.  Models `String.prototype.endsWith`. -/
def endsList (l s : List Char) : Bool := l.reverse.take s.length == s.reverse

/-- Drop the last `n` characters of a list. -/
def dropSuffixList (l : List Char) (n : Nat) : List Char := (l.reverse.drop n).reverse

/-- Model of `s.endsWith(t)`. -/
def jsEndsWith (s t : String) : Bool := endsList s.data t.data

/-- Model of `s.startsWith(t)`. -/
def jsStartsWith (s t : String) : Bool := t.data.isPrefixOf s.data

/-- Infix (substring) search on character lists: `pat` occurs somewhere in `l`.
Models `String.prototype.includes` and unanchored regex search for a literal. -/
def listContainsSub (pat : List Char) : List Char → Bool
  | [] => pat.isEmpty
  | c :: rest => pat.isPrefixOf (c :: rest) || listContainsSub pat rest

/-- Model of `s.includes(t)`. -/
def jsIncludes (s t : String) : Bool := listContainsSub t.data s.data

/-- Drop leading JavaScript whitespace.  Models `String.prototype.trimStart`. -/
def trimLeftStr (s : String) : String := String.mk (s.data.dropWhile jsWs)

/-- Drop whitespace on both sides.  Models `String.prototype.trim`. -/
def trimStr (s : String) : String :=
  String.mk (((s.data.dropWhile jsWs).reverse.dropWhile jsWs).reverse)

/-- Split a character list on a separator character. -/
def splitOnChar (sep : Char) : List Char → List (List Char)
  | [] => [[]]
  | c :: rest =>
    if c == sep then [] :: splitOnChar sep rest
    else
      match splitOnChar sep rest with
      | [] => [[c]]
      | l :: ls => (c :: l) :: ls

/-- Model of `s.split('\n')`, used for the multi-line (`/m`) regex anchors. -/
def splitLines (s : String) : List String := (splitOnChar '\n' s.data).map String.mk

/-- Join strings with a separator (the inverse of the split above). -/
def joinWith (sep : String) : List String → String
  | [] => ""
  | [l] => l
  | l :: rest => l ++ sep ++ joinWith sep rest

/-! ## JavaScript objects (YAML frontmatter values) -/

/-- A YAML / JSON-like value, as produced by `js-yaml` and manipulated by the
frontmatter engine.  Objects are insertion-ordered association lists, matching
JavaScript's own key-enumeration order. -/
inductive Value where
  | str (s : String)
  | boolV (b : Bool)
  | intV (n : Int)
  | arr (elems : List Value)
  | obj (fields : List (String × Value))

/-- A JavaScript object: ordered key/value pairs. -/
abbrev Obj := List (String × Value)

/-- Model of `o[k]`: the value stored under key `k`, if any. -/
def objGet (o : Obj) (k : String) : Option Value :=
  (o.find? (fun p => p.1 == k)).map (·.2)

/-- Model of `o[k] = v`: replace the value in place when the key exists
(preserving its position, as JavaScript does), otherwise append the pair. -/
def objSet (o : Obj) (k : String) (v : Value) : Obj :=
  if o.any (fun p => p.1 == k) then
    o.map (fun p => if p.1 == k then (k, v) else p)
  else o ++ [(k, v)]

/-- Model of the object spread `{...a, ...b}`: every key of `b` is written over
`a`, in `b`'s enumeration order. -/
def objSpread (a b : Obj) : Obj := b.foldl (fun acc p => objSet acc p.1 p.2) a

/-- Truthiness of a value, as JavaScript's `if (v)` sees it. -/
def truthy : Value → Bool
  | .str s => !s.isEmpty
  | .boolV b => b
  | .intV n => n != 0
  | .arr _ => true
  | .obj _ => true

/-- Read a value as an object, defaulting to `{}`.  Models `v || {}` followed by
property assignment in the places the source does that. -/
def asObjD : Option Value → Obj
  | some (.obj o) => o
  | _ => []

/-! ## Syntax scanners (`scripts/lib/jsx.js`, `scripts/lib/syntax.js`)

The JSX detector `hasJSXSyntax` matches a capitalized custom element: the
pattern `<[A-Z][A-Za-z0-9]*[\s/>]` (the AST pass accepts exactly the
capitalized `mdxJsxFlowElement`/`mdxJsxTextElement` tags, and the fallback
regex is this pattern).  The Markdoc detector is the raw-text regex
`\{%\s+\w+[^%]*%\}`, and the heading badge detector is the multi-line regex
`^#{1,6}\s+.*:badge\[[^\]]*\]`. -/

/-- After `<X` (with `X` uppercase): consume `[A-Za-z0-9]*`, then require a
terminator from the class `[\s/>]`. -/
def jsxTagTail : List Char → Bool
  | [] => false
  | c :: rest =>
    if jsWs c || c == '/' || c == '>' then true
    else if isAlnumAscii c then jsxTagTail rest
    else false

/-- Search for an occurrence of `<[A-Z][A-Za-z0-9]*[\s/>]` anywhere in the list. -/
def containsJsxTag : List Char → Bool
  | [] => false
  | c :: rest =>
    (c == '<' &&
      (match rest with
       | [] => false
       | d :: rest2 => isUpperAscii d && jsxTagTail rest2)) ||
    containsJsxTag rest

/-- Scan the `[^%]*%\}` part of the Markdoc tag regex: any characters other
than `%`, then the closing `%\x7d`. -/
def mdocTagBody : List Char → Bool
  | [] => false
  | '%' :: rest => rest.headD ' ' == '}'
  | _ :: rest => mdocTagBody rest

/-- After `\x7b%`: require `\s+`, then `\w`, then `mdocTagBody` (the remaining
`\w*` of `\w+` is subsumed by the `[^%]*` that follows it). -/
def mdocTagAfterWs : List Char → Bool
  | [] => false
  | c :: rest =>
    if jsWs c then mdocTagAfterWs rest
    else if isWordChar c then mdocTagBody rest
    else false

/-- Search for an occurrence of `\{%\s+\w+[^%]*%\}` anywhere in the list. -/
def containsMdocTag : List Char → Bool
  | [] => false
  | c :: rest =>
    (c == '{' &&
      (match rest with
       | '%' :: d :: rest2 => jsWs d && mdocTagAfterWs rest2
       | _ => false)) ||
    containsMdocTag rest

/-- Check for `:badge\[[^\]]*\]` in the tail of a heading line: a literal
`:badge[` occurrence with some `]` after it. -/
def hasBadgeRef : List Char → Bool
  | [] => false
  | c :: rest =>
    (":badge[".data.isPrefixOf (c :: rest) && ((c :: rest).drop 7).contains ']') ||
    hasBadgeRef rest

/-- Count the leading `#` characters of a line. -/
def countLeadingHash : List Char → Nat
  | '#' :: rest => countLeadingHash rest + 1
  | _ => 0

/-- One line of the multi-line heading-badge regex `^#{1,6}\s+.*:badge\[[^\]]*\]`:
one to six `#`, a whitespace character, and a badge reference in the rest. -/
def lineHeadingBadge (l : List Char) : Bool :=
  let k := countLeadingHash l
  decide (1 ≤ k) && decide (k ≤ 6) &&
    (match l.drop k with
     | [] => false
     | c :: rest => jsWs c && hasBadgeRef rest)

/-- Model of `HEADING_BADGE.test(content)` (`syntax.js`). -/
def hasHeadingBadge (s : String) : Bool :=
  (splitLines s).any (fun l => lineHeadingBadge l.data)

/-- Model of `MARKDOC_TAG.test(content)` (`syntax.js`). -/
def containsMarkdocTag (s : String) : Bool := containsMdocTag s.data

/-! ## Documents

A document is modelled as an optional parsed frontmatter object plus a body
given as a list of segments, each segment being either code (a fenced block /
inline code span, rendered with its delimiters) or ordinary text.  The segment
distinction captures exactly what the AST-based JSX detection gives the source:
component tags inside code segments are not detected, while the raw-text
Markdoc regexes see the whole content string. -/

/-- One body segment: code (fence or inline span, including its delimiters in
the raw text) or plain text. -/
inductive Segment where
  | code (s : String)
  | text (s : String)

/-- A content document: parsed frontmatter (if a leading metadata block is
present) and the body segments that follow it. -/
structure DocModel where
  fm : Option Obj
  body : List Segment

/-- Raw text of a segment. -/
def segRaw : Segment → String
  | .code s => s
  | .text s => s

/-- Raw text of a body. -/
def bodyRaw (segs : List Segment) : String :=
  segs.foldl (fun acc s => acc ++ segRaw s) ""

/-! ## Format detection (`scripts/lib/syntax.js`) -/

/-- The format names used by `detectSyntax` / `getTargetFormat`:
`mdx`, `markdoc`, `markdown`, and `unchanged` (non-convertible filename). -/
inductive MdFormat where
  | mdx
  | markdoc
  | markdown
  | unchanged
deriving DecidableEq, Repr

/-- Model of `hasJSXSyntax` (`jsx.js`): a capitalized component tag occurs in
the document outside code fences and inline code (the AST pass skips those). -/
def hasJsxIn (segs : List Segment) : Bool :=
  segs.any fun s =>
    match s with
    | .text t => containsJsxTag t.data
    | .code _ => false

/-- Model of `usesMarkdocSyntax` (`syntax.js`): the raw content matches the
Markdoc tag regex or the heading-badge regex.  Note this is a raw-text test —
unlike JSX detection it does not exclude code fences. -/
def usesMarkdocIn (raw : String) : Bool :=
  containsMarkdocTag raw || hasHeadingBadge raw


/-- Model of the frontmatter block as rendered by `yaml.dump` (`js-yaml` with
`lineWidth: -1`): one `key: value` line per scalar field, nested objects in
block style with two-space indentation, arrays as `- item` lines.  Only the
shapes that the pipeline actually writes are exercised by the theorems. -/
def dumpScalar : Value → String
  | .str s => s
  | .boolV b => cond b "true" "false"
  | .intV n => toString n
  | .arr _ => ""
  | .obj _ => ""

/-- Spaces for one indentation level. -/
def indentSpaces : Nat → String
  | 0 => ""
  | n + 1 => "  " ++ indentSpaces n

/-- Render array items at the given indentation depth (container items render
as bare markers; the pipeline only ever writes scalar array items). -/
def dumpItems (depth : Nat) : List Value → String
  | [] => ""
  | v :: rest =>
    indentSpaces depth ++ "- " ++
      (match v with
       | .obj _ => "\n"
       | .arr _ => "\n"
       | sc => dumpScalar sc ++ "\n") ++
    dumpItems depth rest

mutual

/-- Render the fields of an object at the given indentation depth. -/
def dumpFields (depth : Nat) : List (String × Value) → String
  | [] => ""
  | (k, v) :: rest =>
    indentSpaces depth ++ k ++ dumpValuePart depth v ++ dumpFields depth rest

/-- Render the part after a key: inline for scalars, block for containers. -/
def dumpValuePart (depth : Nat) : Value → String
  | .obj o => ":\n" ++ dumpFields (depth + 1) o
  | .arr l => ":\n" ++ dumpItems depth l
  | sc => ": " ++ dumpScalar sc ++ "\n"

end

/-- Model of `stringifyFrontmatter` (`frontmatter.js`): empty objects render as
the empty string. -/
def stringifyFrontmatter (o : Obj) : String :=
  if o.isEmpty then "" else dumpFields 0 o

/-- Raw content of a document: the rendered metadata block (when present)
followed by the raw body.  This is the string the raw-text regexes see. -/
def contentRaw (d : DocModel) : String :=
  (match d.fm with
   | some o => "---\n" ++ stringifyFrontmatter o ++ "---"
   | none => "") ++ bodyRaw d.body

/-- Model of `detectSyntax` (`syntax.js`): JSX first, then Markdoc, else plain
markdown. -/
def detectFormat (d : DocModel) : MdFormat :=
  if hasJsxIn d.body then .mdx
  else if usesMarkdocIn (contentRaw d) then .markdoc
  else .markdown

/-! ## Extension classes (`scripts/lib/patterns.js`) -/

/-- The `CONVERTIBLE_MARKDOWN_EXTENSIONS` alternation, as dot-prefixed suffixes. -/
def CONVERTIBLE_EXTS : List String :=
  [".md", ".markdown", ".mdown", ".mkdn", ".mkd", ".mdwn", ".mdtxt", ".mdtext", ".text", ".txt"]

/-- The `ALL_MARKDOWN_EXTENSIONS` alternation, as dot-prefixed suffixes. -/
def ALL_MARKDOWN_EXTS : List String := CONVERTIBLE_EXTS ++ [".mdx", ".mdoc", ".markdoc"]

/-- Case-insensitive test of a filename against an anchored extension
alternation such as `/\.(md|…)$/i`. -/
def matchesExtList (exts : List String) (name : String) : Bool :=
  exts.any fun e => jsEndsWith (toLowerStr name) e

/-- Strip the matched extension (case-insensitively), leaving the rest of the
name untouched.  Models `name.replace(/\.(…)$/i, '')`.  The alternatives are
mutually exclusive as suffixes, so which listed suffix matches is unambiguous. -/
def stripExtList (exts : List String) (name : String) : String :=
  match exts.find? (fun e => jsEndsWith (toLowerStr name) e) with
  | some e => String.mk (dropSuffixList name.data e.length)
  | none => name

/-- Model of `convertExtension` (`patterns.js`). -/
def convertExtension (filename : String) (target : MdFormat) : String :=
  let baseName := stripExtList ALL_MARKDOWN_EXTS filename
  match target with
  | .mdx => baseName ++ ".mdx"
  | .markdoc => baseName ++ ".mdoc"
  | .markdown => baseName ++ ".md"
  | .unchanged => filename

/-- Model of `getTargetFormat` (`syntax.js`). -/
def getTargetFormat (filename : String) (d : DocModel) : MdFormat × Bool :=
  if !matchesExtList CONVERTIBLE_EXTS filename then (.unchanged, false)
  else if jsIncludes filename "node_modules" then (.markdown, false)
  else
    match detectFormat d with
    | .mdx => (.mdx, true)
    | .markdoc => (.markdoc, true)
    | _ => (.markdown, false)

/-- Model of `getTargetExtension` (`syntax.js`). -/
def getTargetExtension (originalFilename : String) (target : MdFormat) : String :=
  if !matchesExtList CONVERTIBLE_EXTS originalFilename then originalFilename
  else convertExtension originalFilename target

/-! ## README renaming (`prepare.js`, per-file loop) -/

/-- Strip a `.md`/`.mdx`/`.mdoc` extension case-insensitively.  Models
`f.name.replace(/\.(md|mdx|mdoc)$/i, '')`. -/
def stripCanonCI (name : String) : String :=
  stripExtList [".md", ".mdx", ".mdoc"] name

/-- Extract the matched `.md`/`.mdx`/`.mdoc` extension (case-insensitively),
keeping its original casing.  Models `f.name.match(/\.(md|mdx|mdoc)$/i)?.[0]`. -/
def extCanonCI (name : String) : Option String :=
  match [".md", ".mdx", ".mdoc"].find? (fun e => jsEndsWith (toLowerStr name) e) with
  | some e => some (String.mk (name.data.reverse.take e.length).reverse)
  | none => none

/-- The exact-casing basename test `^(readme|README|Readme)$`. -/
def isReadmeBase (b : String) : Bool :=
  b == "readme" || b == "README" || b == "Readme"

/-- Does an `index.md` / `index.mdx` / `index.mdoc` sibling exist?  Models the
`['md', 'mdx', 'mdoc'].some(ext => existsSync(join(sourceDir, `index.` + ext)))`
check, with `siblings` the file names present in the source directory. -/
def indexSiblingExists (siblings : List String) : Bool :=
  ["md", "mdx", "mdoc"].any fun e => siblings.contains ("index." ++ e)

/-- Working destination basename chosen by the per-file loop for a markdown
file: README-family files are renamed to `index` + extension when no index
sibling exists, otherwise the name is kept.  (When the rename fires the
extension is always present; the `getD "undefined"` mirrors JavaScript
template-string interpolation of `undefined`.) -/
def readmeWorkingName (name : String) (siblings : List String) : String :=
  if isReadmeBase (stripCanonCI name) && !indexSiblingExists siblings then
    "index" ++ (extCanonCI name).getD "undefined"
  else name

/-! ## Slug computation (`prepare.js`, per-file loop) -/

/-- Strip a trailing lowercase canonical extension.  Models the case-sensitive
`replace(/\.(md|mdx|mdoc)$/, '')` in the slug computation. -/
def dropCanonExtCS (l : List Char) : List Char :=
  if endsList l ".md".data then dropSuffixList l 3
  else if endsList l ".mdx".data then dropSuffixList l 4
  else if endsList l ".mdoc".data then dropSuffixList l 5
  else l

/-- Strip a trailing `/index` segment.  Models `replace(/\/index$/, '')`. -/
def dropIndexSuffix (l : List Char) : List Char :=
  if endsList l "/index".data then dropSuffixList l 6 else l

/-- Model of the slug computation: strip the canonical extension, strip a
trailing `/index`, then lower-case. -/
def slugOf (finalRelPath : String) : String :=
  String.mk (toLowerList (dropIndexSuffix (dropCanonExtCS finalRelPath.data)))

/-- Reading of the claim sentence "the slug is the lower-cased final relative
path with its format extension removed": lower-case first, then strip the
extension (hence case-insensitively) and a trailing `/index` segment. -/
def slugPerSpec (finalRelPath : String) : String :=
  String.mk (dropIndexSuffix (dropCanonExtCS (toLowerList finalRelPath.data)))

/-! ## Frontmatter engine (`scripts/lib/frontmatter.js`) -/

/-- One line of `/^#\s+.+$/m`: a `#`, at least one whitespace character, and at
least one further character. -/
def h1LineMatch : List Char → Bool
  | '#' :: c :: rest => jsWs c && !rest.isEmpty
  | _ => false

/-- First H1 line of the content, if any. -/
def findH1Line (s : String) : Option String :=
  (splitLines s).find? (fun l => h1LineMatch l.data)

/-- Replace the first H1 line with the empty string.  Models
`bodyContent.replace(/^#\s+.+$/m, '')`. -/
def removeFirstH1 (s : String) : String :=
  let rec go : List String → List String
    | [] => []
    | l :: rest => if h1LineMatch l.data then "" :: rest else l :: go rest
  joinWith "\n" (go (splitLines s))

/-- Title text extracted from an H1 line: drop the `#`, drop the following
whitespace, trim.  Models `content.match(/^#\s+(.+)$/m)?.at(1)` + `.trim()`. -/
def titleFromH1 (l : String) : String :=
  trimStr (String.mk ((l.data.drop 1).dropWhile jsWs))

/-- Last `/`-separated segment of a path.  Models `basename(path)`. -/
def basenameStr (s : String) : String :=
  ((((splitOnChar '/' s.data).map String.mk).getLast?)).getD s

/-- Capitalize every word start.  Models `replace(/\b\w/g, c => c.toUpperCase())`
after separators were replaced by spaces. -/
def capitalizeWords (l : List Char) : List Char :=
  let rec go (prevWord : Bool) : List Char → List Char
    | [] => []
    | c :: rest =>
      (if isWordChar c && !prevWord then upperChar c else c) :: go (isWordChar c) rest
  go false l

/-- Model of `getTitle` (`frontmatter.js`): first H1 heading text if present,
else the filename with separators replaced by spaces and each word
capitalized, with `README` mapping to `Overview`. -/
def getTitle (path content : String) : String :=
  match findH1Line content with
  | some l => titleFromH1 l
  | none =>
    let filename := stripExtList ALL_MARKDOWN_EXTS (basenameStr path)
    if toUpperStr filename == "README" then "Overview"
    else
      String.mk (capitalizeWords (filename.data.map
        (fun c => if c == '-' || c == '_' then ' ' else c)))

/-- Model of `mergeFrontmatter` (`frontmatter.js`): start from `{...defaults}`,
then write every key of `existing` over it; when both sides hold plain
objects the two are spread together with `existing`'s entries winning. -/
def mergeFrontmatter (existing defaults : Obj) : Obj :=
  existing.foldl
    (fun merged p =>
      match p.2, objGet defaults p.1 with
      | .obj eo, some (.obj dobj) => objSet merged p.1 (.obj (objSpread dobj eo))
      | v, _ => objSet merged p.1 v)
    defaults

/-! ## Config cascade (`scripts/lib/config.js`) -/

/-- One discovered `docfu.yml`, reduced to the parts `getApplicable` reads:
its directory (relative to the source root, `"."` for the root config), its
`frontmatter` block, and its per-file blocks (`config[key].frontmatter`,
keyed by the raw config key). -/
structure ConfigNode where
  dir : String
  frontmatter : Option Obj
  fileBlocks : List (String × Obj)

/-- Look up a per-file block by key. -/
def lookupBlock (node : ConfigNode) (key : String) : Option Obj :=
  ((node.fileBlocks.find? (fun p => p.1 == key)).map (·.2))

mutual

/-- Model of `deepMerge` (`config.js`): fold the source object over the target,
recursing into plain objects and replacing everything else. -/
def deepMerge (target : Obj) : Obj → Obj
  | [] => target
  | (k, v) :: rest => deepMerge (deepSetKey target k v) rest

/-- One step of `deepMerge`: write `v` under `k`, recursing when `v` is an
object (with `result[key] || {}` as the recursion base). -/
def deepSetKey (target : Obj) (k : String) : Value → Obj
  | .obj so => objSet target k (.obj (deepMerge (asObjD (objGet target k)) so))
  | v => objSet target k v

end

/-- Directory part of a relative path.  Models `dirname(relative)`: `"."` when
the path has no slash. -/
def dirnameStr (s : String) : String :=
  let parts := (splitOnChar '/' s.data).map String.mk
  if parts.length ≤ 1 then "." else joinWith "/" parts.dropLast

/-- Strip the leading `dir + "/"` from a path.  Models
`relative.replace(configDir, '')` for the ancestor directories that reach it
(the first occurrence of `dir + "/"` is the leading one there). -/
def stripLeadDir (dir path : String) : String :=
  if jsStartsWith path (dir ++ "/") then
    String.mk (path.data.drop (dir ++ "/").length)
  else path

/-- Model of `getApplicable` (`config.js`): walk the hierarchical configs in
order, deep-merging every ancestor `frontmatter` block into `defaults` and
keeping the last ancestor's matching per-file block as `fileSpecific`. -/
def getApplicable (configs : List ConfigNode) (relPath : String) : Obj × Option Obj :=
  let fileDir := dirnameStr relPath
  let fileName := basenameStr relPath
  configs.foldl
    (fun acc node =>
      let isAncestor :=
        node.dir == "." || fileDir == node.dir || jsStartsWith fileDir (node.dir ++ "/")
      if isAncestor then
        let defaults :=
          match node.frontmatter with
          | some fmo => deepMerge acc.1 fmo
          | none => acc.1
        let relativeToConfig := if node.dir == "." then relPath else stripLeadDir node.dir relPath
        let fileSpecific :=
          match lookupBlock node fileName with
          | some b => some b
          | none =>
            match lookupBlock node relativeToConfig with
            | some b => some b
            | none => acc.2
        (defaults, fileSpecific)
      else acc)
    ([], none)

/-! ## Frontmatter merge with the hierarchical config
(`mergeFrontmatterWithHierarchicalConfig`, `frontmatter.js`) -/

/-- Force the hidden-page fields: `pagefind: false` and `sidebar.hidden: true`
(with `sidebar || {}` as the base object). -/
def forceHidden (m : Obj) : Obj :=
  let m1 := objSet m "pagefind" (.boolV false)
  objSet m1 "sidebar" (.obj (objSet (asObjD (objGet m1 "sidebar")) "hidden" (.boolV true)))

/-- The merged frontmatter object computed by
`mergeFrontmatterWithHierarchicalConfig`: `{...defaults}`, then
`mergeFrontmatter(merged, existing)`, then `mergeFrontmatter(merged,
fileSpecific)` when a file-specific block exists, then the forced
hidden/unlisted fields, then title synthesis when no truthy `title` survives
(`fallbackTitle` stands for the `getTitle(path, content)` call). -/
def mergedFrontmatterFor (configs : List ConfigNode) (relPath : String)
    (existing : Obj) (isHidden isUnlisted : Bool) (fallbackTitle : String) : Obj :=
  let app := getApplicable configs relPath
  let m := mergeFrontmatter app.1 existing
  let m :=
    match app.2 with
    | some fs => mergeFrontmatter m fs
    | none => m
  let m := if isHidden then forceHidden m else m
  let m := if isUnlisted then objSet m "pagefind" (.boolV false) else m
  match objGet m "title" with
  | some t => if truthy t then m else objSet m "title" (.str fallbackTitle)
  | none => objSet m "title" (.str fallbackTitle)

/-- Model of `updateContentFrontmatter` (`frontmatter.js`): emit the serialized
merged object between `---` fences, then the body with the first H1 removed
(when requested) and leading whitespace trimmed. -/
def updateContentFrontmatter (origBody : String) (fmObj : Obj) (removeH1 : Bool) : String :=
  "---\n" ++ stringifyFrontmatter fmObj ++ "---\n\n" ++
    trimLeftStr (if removeH1 then removeFirstH1 origBody else origBody)

/-! ## README link rewriting and the per-file transform
(`scripts/lib/ast.js`, `transformMarkdownSyntax` in `prepare.js`) -/

/-- The short-circuit guard of `transformReadmeLinks`:
`/(readme|README|Readme)\.(md|mdx|mdoc)/i.test(content)`.  Every alternative
of the extension alternation begins with `md`, so with the `i` flag the test
is equivalent to a case-insensitive search for the literal `readme.md`. -/
def readmeGuard (s : String) : Bool :=
  listContainsSub "readme.md".data (toLowerList s.data)

/-- Stand-in for the AST link-rewriting pass of `transformReadmeLinks`.  That
pass re-parses and re-serializes the whole document; it is not modelled here,
and every theorem below restricts itself to documents on which the inexpensive
guard short-circuits, where the source returns its input unchanged. -/
def remarkReadmePassDoc (d : DocModel) : DocModel := d

/-- Model of `transformReadmeLinks` (`ast.js`): return the input unchanged when
the guard fails, otherwise run the AST pass. -/
def transformReadmeLinksDoc (d : DocModel) : DocModel :=
  if readmeGuard (contentRaw d) then remarkReadmePassDoc d else d

/-- Stand-in for the MDX auto-import pass (`md2mdx.js` `process`).  Not
modelled; no theorem below reaches this branch. -/
def mdxPassDoc (d : DocModel) : DocModel := d

/-- Stand-in for the Markdoc conversion pass (`md2mdoc.js` `process`).  Its
alert conversion is modelled separately (`convertGitHubAlertBq` below); no
theorem below reaches this branch of the per-file transform. -/
def mdocPassDoc (d : DocModel) : DocModel := d

/-- Model of `transformMarkdownSyntax` (`prepare.js`): README-link rewrite,
format-dependent conversion, then the frontmatter merge.  The returned string
is exactly what `processDocuments` writes to the destination file. -/
def transformMarkdownSyntaxModel (destName : String) (configs : List ConfigNode)
    (relPath : String) (isUnlisted : Bool) (d : DocModel) : String × MdFormat :=
  let d1 := transformReadmeLinksDoc d
  let fs := getTargetFormat destName d1
  let d2 :=
    if fs.2 then
      match fs.1 with
      | .mdx => mdxPassDoc d1
      | .markdoc => mdocPassDoc d1
      | _ => d1
    else if jsEndsWith destName ".mdoc" then mdocPassDoc d1
    else if jsEndsWith destName ".mdx" then mdxPassDoc d1
    else d1
  let existing := d2.fm.getD []
  let merged := mergedFrontmatterFor configs relPath existing false isUnlisted
    (getTitle relPath (contentRaw d2))
  (updateContentFrontmatter (bodyRaw d2.body) merged true, fs.1)

/-! ## GitHub-alert conversion (`scripts/lib/md2mdoc.js`) -/

/-- Model of the `ALERT_TYPES` table: severity keyword to aside variant. -/
def alertVariant (k : String) : Option String :=
  if k == "NOTE" then some "note"
  else if k == "TIP" then some "tip"
  else if k == "IMPORTANT" then some "caution"
  else if k == "WARNING" then some "caution"
  else if k == "CAUTION" then some "danger"
  else none

/-- The recognized severity keywords, in the order of the regex alternation
`(NOTE|TIP|IMPORTANT|WARNING|CAUTION)`. -/
def alertKeywords : List String := ["NOTE", "TIP", "IMPORTANT", "WARNING", "CAUTION"]

/-- Match `^\[!(NOTE|TIP|IMPORTANT|WARNING|CAUTION)\]\s*` against the first
text of a blockquote, returning the keyword and the text with the matched
prefix (including the trailing whitespace) stripped. -/
def alertPrefixMatch (s : String) : Option (String × String) :=
  match alertKeywords.find? (fun kw => jsStartsWith s ("[!" ++ kw ++ "]")) with
  | some kw =>
    some (kw, String.mk ((s.data.drop (kw.length + 3)).dropWhile jsWs))
  | none => none

/-- Model of the blockquote transform inside `convertGitHubAlerts`: a
blockquote is given as the serialized texts of its children, the first child
being the opening paragraph.  When that paragraph starts with a recognized
alert marker the result is the aside variant together with the remaining
children (the stripped first paragraph is kept unless it became empty);
otherwise the blockquote is left alone (`none`). -/
def convertGitHubAlertBq (children : List String) : Option (String × List String) :=
  match children with
  | [] => none
  | first :: rest =>
    match alertPrefixMatch first with
    | none => none
    | some (kw, stripped) =>
      (alertVariant kw).map fun v =>
        (v, if stripped == "" then rest else stripped :: rest)

/-- Render of the emitted aside node, with the converted children serialized
between the tags. -/
def renderAside (variantName : String) (children : List String) : String :=
  "\x7b% aside type=\"" ++ variantName ++ "\" %\x7d\n" ++
    trimStr (String.intercalate "" children) ++ "\n\x7b% /aside %\x7d"

/-! ## Preflight safety checks (`processDocuments`, destructive clean) -/

/-- An absolute, resolved filesystem path, as a list of segments (the root
directory is `[]`). -/
abbrev SysPath := List String

/-- The fixed list of system-critical paths guarded by
`isDangerousSystemPath`: filesystem root, the home directory and its
Documents/Desktop/Downloads children, the parent of home, the Unix system
directories, the macOS directories and the Windows directories. -/
def dangerousPaths (home : SysPath) : List SysPath :=
  [[], home, home ++ ["Documents"], home ++ ["Desktop"], home ++ ["Downloads"],
   home.dropLast,
   ["etc"], ["usr"], ["bin"], ["sbin"], ["var"],
   ["Applications"], ["System"], ["Library"],
   ["C:", "Windows"], ["C:", "Program Files"], ["C:", "Program Files (x86)"]]

/-- Model of `isDangerousSystemPath`: the resolved path equals one of the
dangerous paths. -/
def isDangerousSystemPath (home p : SysPath) : Bool :=
  (dangerousPaths home).contains p

/-- Strict containment of paths: `child` lies strictly below `parent`.
Models `child.startsWith(parent + sep)` on resolved paths. -/
def isInsidePath (child parent : SysPath) : Bool :=
  parent.isPrefixOf child && decide (parent.length < child.length)

/-- The preflight checks run by `processDocuments` before the destructive
clean of the root directory: the root must not be a system-critical path, must
not equal the source, and the source must not lie inside the root.  All three
violations abort before any deletion; when this predicate holds the clean
proceeds. -/
def preflightPasses (home source root : SysPath) : Bool :=
  !isDangerousSystemPath home root && !(root == source) && !isInsidePath source root

/-! ## Exclude patterns (`isExcludedFile` in `processDocuments`)

`minimatch` is modelled for the pattern shapes the claims exercise: literal
(wildcard-free) patterns, plus the `dir + "/**"` form that `isExcludedFile`
itself constructs.  A literal pattern matches only by equality; `dir + "/**"`
matches every path strictly below `dir` (file paths never end in `/`). -/

/-- Does the pattern contain a `/`? -/
def containsSlash (s : String) : Bool := s.data.contains '/'

/-- Model of `minimatch(path, pat)` for a literal pattern or a literal
pattern with a trailing `/**`. -/
def matchLiteralPattern (pat path : String) : Bool :=
  if jsEndsWith pat "/**" then
    jsStartsWith path (String.mk (dropSuffixList pat.data 3) ++ "/")
  else pat == path

/-- Model of `isExcludedFile` (`prepare.js`): a trailing-`/` pattern gets `**`
appended; a slash-free pattern is tried as `pattern + "/**"` and (via
`matchBase`) against the path's basename; any other pattern is matched against
the whole relative path. -/
def isExcludedFile (patterns : List String) (path : String) : Bool :=
  patterns.any fun pattern =>
    let p := if jsEndsWith pattern "/" then pattern ++ "**" else pattern
    if !containsSlash p then
      matchLiteralPattern (p ++ "/**") path || basenameStr path == p
    else matchLiteralPattern p path

/-- Outcome of the per-file loop of `processDocuments` for one source file. -/
inductive FileAction where
  | skipConfig
  | skipInternal
  | skipAssets
  | skipExcluded
  | copyComponent
  | writeMarkdown
  | copyStatic
deriving DecidableEq, Repr

/-- Decision taken by the per-file loop for a file with the given name and
source-relative path: `docfu.yml` files, files under `.docfu/` and files under
the assets directory are skipped first; excluded files are dropped before any
copying or conversion; component files are copied with canonicalized
extension; markdown files are transformed and written; everything else is
copied byte for byte. -/
def fileAction (assetsDir componentsDir : String) (componentsEnabled : Bool)
    (patterns : List String) (fileName relPath : String) : FileAction :=
  if fileName == "docfu.yml" then .skipConfig
  else if jsStartsWith relPath ".docfu/" then .skipInternal
  else if jsStartsWith relPath (assetsDir ++ "/") then .skipAssets
  else if isExcludedFile patterns relPath then .skipExcluded
  else if componentsEnabled && jsStartsWith relPath (componentsDir ++ "/") then .copyComponent
  else if matchesExtList ALL_MARKDOWN_EXTS fileName then .writeMarkdown
  else .copyStatic

/-! ## CSS discovery (`discoverCss` in `prepare.js`)

`discoverCss` filters the recursive directory listing down to `.css` files and
sorts the relative paths with `a.path.localeCompare(b.path)`.  `localeCompare`
is locale-aware collation, not code-unit comparison; on the basic-Latin
filenames modelled here it compares case-insensitively first and breaks ties
by putting lowercase before uppercase at the first case difference.  That
order is captured by the injective key below, and since the comparator is a
strict total order the sorted result of the JavaScript sort is the unique
sorted permutation, which `List.insertionSort` computes. -/

/-- Code units of a string, as a list of naturals (one per character). -/
def codeUnits (s : String) : List Nat := s.data.map Char.toNat

/-- Collation key of a path: the code units of the lower-cased string first,
then the original code units under the dual order (so that at the first case
difference the lowercase letter, having the larger code unit, comes first). -/
def cssKey (s : String) : Lex (List Nat × OrderDual (List Nat)) :=
  toLex (codeUnits (toLowerStr s), OrderDual.toDual (codeUnits s))

/-- The comparator `a.path.localeCompare(b.path) <= 0`, via the collation key. -/
def locLe (a b : String) : Prop := cssKey a ≤ cssKey b

instance : DecidableRel locLe := fun a b =>
  inferInstanceAs (Decidable (cssKey a ≤ cssKey b))

/-- Model of `discoverCss`: keep the `.css` entries of the directory listing
and sort them by the locale comparator.  (The JavaScript sort with a strict
total comparator returns the unique sorted permutation, which
`List.insertionSort` computes.) -/
def discoverCss (names : List String) : List String :=
  List.insertionSort locLe (names.filter fun n => jsEndsWith n ".css")

/-- Plain lexicographic (code-unit) comparison of paths — the order the claim
asserts. -/
def lexLe (a b : String) : Prop := codeUnits a ≤ codeUnits b

instance : DecidableRel lexLe := fun a b =>
  inferInstanceAs (Decidable (codeUnits a ≤ codeUnits b))

/-- The claim's reading of the sort: the stylesheet list ordered by plain
lexicographic string comparison. -/
def sortLexicographic (names : List String) : List String :=
  List.insertionSort lexLe names

/-! ## Config discovery and parse failures (`discover` in `config.js`) -/

/-- Parse outcome of one `docfu.yml` text, at the interface `js-yaml` presents
to `discover`: a syntactically malformed file (on which `yaml.load` throws), a
file whose parse yields nothing (empty document — `yaml.load` returns
`undefined`/`null`), or a parsed object. -/
inductive Yaml where
  | malformed
  | empty
  | objY (o : Obj)

/-- Model of `yaml.load`: throws (`Except.error`) on malformed input,
otherwise returns the optional document. -/
def yamlLoad : Yaml → Except String (Option Obj)
  | .malformed => .error "YAMLException"
  | .empty => .ok none
  | .objY o => .ok (some o)

/-- One discovered configuration file: its directory and its raw parse
outcome. -/
structure RawConfigFile where
  dir : String
  content : Yaml

/-- The parsing stage of `discover` (`config.js`): for every discovered file,
`const config = yaml.load(content) || {}` — there is no try/catch, so an
exception from `yaml.load` propagates and aborts the whole discovery. -/
def discoverParse : List RawConfigFile → Except String (List (String × Obj))
  | [] => .ok []
  | f :: rest => do
    let c ← yamlLoad f.content
    let tail ← discoverParse rest
    pure ((f.dir, c.getD []) :: tail)

/-! ## Helper lemmas on the string model -/

theorem strMk_data (s : String) : String.mk s.data = s := rfl

theorem endsList_append (x y : List Char) : endsList (x ++ y) y = true := by
  unfold endsList
  rw [List.reverse_append, ← List.length_reverse y, List.take_left]
  exact beq_self_eq_true _

theorem dropSuffixList_append (x y : List Char) :
    dropSuffixList (x ++ y) y.length = x := by
  unfold dropSuffixList
  rw [List.reverse_append, ← List.length_reverse y, List.drop_left, List.reverse_reverse]

theorem endsList_append_of_le (x y s : List Char) (h : s.length ≤ y.length) :
    endsList (x ++ y) s = endsList y s := by
  unfold endsList
  rw [List.reverse_append, List.take_append_of_le_length (by simpa using h)]

theorem endsList_decomp {l s : List Char} (h : endsList l s = true) :
    l = dropSuffixList l s.length ++ s := by
  unfold endsList at h
  have htake : l.reverse.take s.length = s.reverse := by
    exact eq_of_beq h
  have := List.take_append_drop s.length l.reverse
  rw [htake] at this
  calc l = l.reverse.reverse := (List.reverse_reverse l).symm
    _ = (s.reverse ++ l.reverse.drop s.length).reverse := by rw [this]
    _ = dropSuffixList l s.length ++ s := by
        rw [List.reverse_append, List.reverse_reverse]; rfl

theorem containsSlash_of_endsSlash {s : String} (h : jsEndsWith s "/" = true) :
    containsSlash s = true := by
  unfold jsEndsWith at h
  have hd := endsList_decomp h
  unfold containsSlash
  rw [hd]
  simp

/-! ## C1: format classification priority -/

/-- C1: for every document, classification follows the fixed priority — a
capitalized custom-element (JSX) tag outside code yields `mdx`; otherwise
structured block-tag syntax or an inline badge annotation on a heading line
yields `markdoc`; otherwise the document is plain `markdown`, and for a
convertible filename `getTargetFormat` reports no conversion needed. -/
theorem C1_classification_priority (d : DocModel) :
    (hasJsxIn d.body = true → detectFormat d = .mdx) ∧
    (hasJsxIn d.body = false → usesMarkdocIn (contentRaw d) = true →
      detectFormat d = .markdoc) ∧
    (hasJsxIn d.body = false → usesMarkdocIn (contentRaw d) = false →
      detectFormat d = .markdown ∧
      ∀ destName, matchesExtList CONVERTIBLE_EXTS destName = true →
        jsIncludes destName "node_modules" = false →
        getTargetFormat destName d = (.markdown, false)) := by
  refine ⟨fun h1 => ?_, fun h1 h2 => ?_, fun h1 h2 => ⟨?_, fun destName hc hn => ?_⟩⟩
  · simp [detectFormat, h1]
  · simp [detectFormat, h1, h2]
  · simp [detectFormat, h1, h2]
  · simp [getTargetFormat, detectFormat, h1, h2, hc, hn]

/-- Witness for C1: each branch of the priority, exercised on a concrete
document (a JSX component tag, a Markdoc block tag, and a plain document). -/
theorem C1_classification_priority_witness :
    detectFormat ⟨none, [Segment.text "hi <Card />"]⟩ = .mdx ∧
    detectFormat ⟨none, [Segment.text "x \x7b% aside %\x7d y"]⟩ = .markdoc ∧
    (detectFormat ⟨none, [Segment.text "plain text"]⟩ = .markdown ∧
      getTargetFormat "a.md" ⟨none, [Segment.text "plain text"]⟩ = (.markdown, false)) :=
  ⟨(C1_classification_priority _).1 (by decide),
   (C1_classification_priority _).2.1 (by decide) (by decide),
   ((C1_classification_priority _).2.2 (by decide) (by decide)).1,
   ((C1_classification_priority _).2.2 (by decide) (by decide)).2 "a.md" (by decide) (by decide)⟩

/-! ## C7: alert severity mapping -/

/-- C7: the severity-keyword to aside-variant mapping is fixed — IMPORTANT and
WARNING both map to `caution`, CAUTION maps to `danger`, NOTE and TIP map 1:1
— and converting an alert blockquote preserves the remaining content. -/
theorem C7_alert_mapping :
    (alertVariant "IMPORTANT" = some "caution" ∧ alertVariant "WARNING" = some "caution" ∧
     alertVariant "CAUTION" = some "danger" ∧ alertVariant "NOTE" = some "note" ∧
     alertVariant "TIP" = some "tip") ∧
    (∀ kw v rest, alertVariant kw = some v →
      convertGitHubAlertBq (("[!" ++ kw ++ "]") :: rest) = some (v, rest)) := by
  refine ⟨by decide, fun kw v rest h => ?_⟩
  unfold alertVariant at h
  split_ifs at h with h1 h2 h3 h4 h5
  · cases eq_of_beq h1; cases Option.some.inj h; rfl
  · cases eq_of_beq h2; cases Option.some.inj h; rfl
  · cases eq_of_beq h3; cases Option.some.inj h; rfl
  · cases eq_of_beq h4; cases Option.some.inj h; rfl
  · cases eq_of_beq h5; cases Option.some.inj h; rfl

/-- Witness for C7: a WARNING alert with body content converts to a `caution`
aside that keeps the body. -/
theorem C7_alert_mapping_witness :
    convertGitHubAlertBq ["[!WARNING]", "Do not do this.\n"] =
      some ("caution", ["Do not do this.\n"]) :=
  C7_alert_mapping.2 "WARNING" "caution" ["Do not do this.\n"] (by decide)

/-! ## C2: README to index renaming -/

/-- Counterexample to C2 as stated: `README.markdown` is a README-family
content file with a supported markdown extension and no index sibling, yet the
per-file loop does not rename it — the rename only fires for the `.md`/`.mdx`/
`.mdoc` extensions that `basename`/`extension` are computed from. -/
theorem C2_counterexample :
    matchesExtList ALL_MARKDOWN_EXTS "README.markdown" = true ∧
    stripExtList ALL_MARKDOWN_EXTS "README.markdown" = "README" ∧
    indexSiblingExists [] = false ∧
    readmeWorkingName "README.markdown" [] = "README.markdown" ∧
    readmeWorkingName "README.markdown" [] ≠ "index.markdown" := by
  refine ⟨by decide, by decide, by decide, by decide, by decide⟩

/-- C2 (amended): for README-family files carrying a `.md`/`.mdx`/`.mdoc`
extension (case-insensitively), the rename to `index` + extension happens iff
no `index.md`/`index.mdx`/`index.mdoc` sibling exists in the source directory;
otherwise the name is retained. -/
theorem C2_readme_rename_iff (name ext : String) (siblings : List String)
    (hext : extCanonCI name = some ext)
    (hbase : isReadmeBase (stripCanonCI name) = true) :
    (indexSiblingExists siblings = false → readmeWorkingName name siblings = "index" ++ ext) ∧
    (indexSiblingExists siblings = true → readmeWorkingName name siblings = name) := by
  constructor <;> intro hs <;> simp [readmeWorkingName, hbase, hs, hext]

/-- Witness for C2: `README.md` is renamed when no index sibling exists and
kept when `index.md` is present. -/
theorem C2_readme_rename_iff_witness :
    readmeWorkingName "README.md" [] = "index" ++ ".md" ∧
    readmeWorkingName "README.md" ["index.md", "other.md"] = "README.md" :=
  ⟨(C2_readme_rename_iff "README.md" ".md" [] (by decide) (by decide)).1 (by decide),
   (C2_readme_rename_iff "README.md" ".md" ["index.md", "other.md"] (by decide)
     (by decide)).2 (by decide)⟩

/-! ## C3: preflight safety checks before the destructive clean -/

/-- Counterexample to C3 as stated: a clean target lying inside the source
directory passes the preflight (the checks are equality, source-inside-target
and system-critical path; target-inside-source is not checked).  This is the
tool's default layout — `.docfu` under the project directory. -/
theorem C3_counterexample :
    preflightPasses ["home", "user"] ["home", "user", "docs"]
      ["home", "user", "docs", ".docfu"] = true ∧
    isInsidePath ["home", "user", "docs", ".docfu"] ["home", "user", "docs"] = true := by
  refine ⟨by decide, by decide⟩

/-- C3 (amended): every destructive clean is preceded by exactly these checks —
the resolved target is not a recognized system-critical path, does not equal
the source directory, and does not contain the source directory.  (Target
contained inside the source is permitted; it is the default layout.) -/
theorem C3_preflight_checks (home source root : SysPath)
    (h : preflightPasses home source root = true) :
    isDangerousSystemPath home root = false ∧ root ≠ source ∧
      isInsidePath source root = false := by
  unfold preflightPasses at h
  simp only [Bool.and_eq_true, Bool.not_eq_true'] at h
  exact ⟨h.1.1, by simpa using h.1.2, h.2⟩

/-- Witness for C3: a clean-target/source pair that passes all three checks. -/
theorem C3_preflight_checks_witness :
    isDangerousSystemPath ["home", "user"] ["home", "user", "proj", ".docfu"] = false ∧
    ["home", "user", "proj", ".docfu"] ≠ ["home", "user", "proj", "docs"] ∧
    isInsidePath ["home", "user", "proj", "docs"] ["home", "user", "proj", ".docfu"] = false :=
  C3_preflight_checks ["home", "user"] ["home", "user", "proj", "docs"]
    ["home", "user", "proj", ".docfu"] (by decide)

/-! ## C4: configuration parse failures -/

/-- Counterexample to C4 as stated: one malformed `docfu.yml` does not become
an empty object — `yaml.load` throws, `discover` has no handler, and the whole
discovery aborts instead of returning a master config covering the other
files. -/
theorem C4_counterexample :
    discoverParse [⟨".", Yaml.malformed⟩, ⟨"docs", Yaml.objY [("site", Value.str "x")]⟩]
      = Except.error "YAMLException" := rfl

/-- C4 (amended): only a config file whose parse yields nothing (an empty
document) is replaced by the empty object; when no file is malformed the
discovery succeeds and covers every file. -/
theorem C4_parse_recovery (files : List RawConfigFile)
    (h : ∀ f ∈ files, f.content ≠ Yaml.malformed) :
    discoverParse files =
      Except.ok (files.map fun f =>
        (f.dir, match f.content with | .objY o => o | _ => [])) := by
  induction files with
  | nil => rfl
  | cons f rest ih =>
    have hf : f.content ≠ Yaml.malformed := h f (by simp)
    have hrest : ∀ g ∈ rest, g.content ≠ Yaml.malformed := fun g hg => h g (by simp [hg])
    cases hc : f.content with
    | malformed => exact absurd hc hf
    | empty =>
      simp only [discoverParse, hc, yamlLoad, ih hrest, List.map_cons]
      rfl
    | objY o =>
      simp only [discoverParse, hc, yamlLoad, ih hrest, List.map_cons]
      rfl

/-- Witness for C4: an empty config file together with a parsed one — the empty
file yields the empty object and both files survive discovery. -/
theorem C4_parse_recovery_witness :
    discoverParse [⟨".", Yaml.empty⟩, ⟨"guides", Yaml.objY [("exclude", Value.arr [])]⟩]
      = Except.ok [(".", []), ("guides", [("exclude", Value.arr [])])] :=
  C4_parse_recovery [⟨".", Yaml.empty⟩, ⟨"guides", Yaml.objY [("exclude", Value.arr [])]⟩]
    (by
      intro f hf
      simp only [List.mem_cons, List.not_mem_nil, or_false] at hf
      rcases hf with rfl | rfl <;> simp)

/-! ## C5: frontmatter merge precedence -/

/-- C5 (code bug): the call `mergeFrontmatter(mergedFrontmatter,
existingFrontmatter)` passes the accumulated cascade defaults in the
parameter slot that `mergeFrontmatter` documents as taking precedence, so
cascade defaults override the document's own frontmatter, and the
file-specific block (merged the same way) is weakest — the reverse of the
documented precedence.  Evaluated at the failing inputs: a cascade default
`title: Default` beats the document's `title: Custom`, and a file-specific
`title: FileSpec` loses to the document's `title: Custom`. -/
theorem C5_precedence_inverted :
    objGet (mergedFrontmatterFor [⟨".", some [("title", Value.str "Default")], []⟩]
        "guide.md" [("title", Value.str "Custom")] false false "Fallback") "title"
      = some (Value.str "Default") ∧
    objGet (mergedFrontmatterFor [⟨".", none, [("guide.md", [("title", Value.str "FileSpec")])]⟩]
        "guide.md" [("title", Value.str "Custom")] false false "Fallback") "title"
      = some (Value.str "Custom") :=
  ⟨rfl, rfl⟩

/-! ## C6: exclude-pattern transitivity -/

/-- Counterexample to C6 as stated: the slash-containing pattern `sub/drafts`
(exactly what `discover` produces for `exclude: [drafts]` in `sub/docfu.yml`)
names a directory, yet the file `sub/drafts/x.md` beneath it is not excluded —
patterns with a slash and no trailing `/` are matched against the whole path
only, so the file is processed as ordinary markdown. -/
theorem C6_counterexample :
    containsSlash "sub/drafts" = true ∧
    jsStartsWith "sub/drafts/x.md" ("sub/drafts" ++ "/") = true ∧
    isExcludedFile ["sub/drafts"] "sub/drafts/x.md" = false ∧
    fileAction "assets" "components" true ["sub/drafts"] "x.md" "sub/drafts/x.md"
      = FileAction.writeMarkdown := by
  refine ⟨by decide, by decide, by decide, by decide⟩

/-- C6 (amended): exclusion is transitive over directories for slash-free
patterns and for patterns ending in `/` — every file beneath the named
directory, at any depth, is excluded regardless of any other pattern in the
list — and an excluded file is dropped by the per-file loop before any copy,
conversion or manifest entry.  (A slash-containing pattern without a trailing
slash matches only the exact path.) -/
theorem C6_directory_excludes (patterns : List String) (pattern path : String)
    (hmem : pattern ∈ patterns) :
    (containsSlash pattern = false → jsStartsWith path (pattern ++ "/") = true →
      isExcludedFile patterns path = true) ∧
    (jsEndsWith pattern "/" = true → jsStartsWith path pattern = true →
      isExcludedFile patterns path = true) ∧
    (∀ assetsDir componentsDir componentsEnabled fileName,
      isExcludedFile patterns path = true →
      (fileName == "docfu.yml") = false →
      jsStartsWith path ".docfu/" = false →
      jsStartsWith path (assetsDir ++ "/") = false →
      fileAction assetsDir componentsDir componentsEnabled patterns fileName path
        = FileAction.skipExcluded) := by
  refine ⟨fun hns hb => ?_, fun hsl hb => ?_, fun aD cD cE fN hex hf hd ha => ?_⟩
  · have hslash : jsEndsWith pattern "/" = false := by
      cases hEq : jsEndsWith pattern "/" with
      | false => rfl
      | true => exact absurd (containsSlash_of_endsSlash hEq) (by simp [hns])
    have he : jsEndsWith (pattern ++ "/**") "/**" = true := by
      unfold jsEndsWith
      rw [String.data_append]
      exact endsList_append _ _
    have hdrop : dropSuffixList (pattern ++ "/**").data 3 = pattern.data := by
      rw [String.data_append]
      exact dropSuffixList_append pattern.data "/**".data
    have hml : matchLiteralPattern (pattern ++ "/**") path = true := by
      unfold matchLiteralPattern
      rw [if_pos he, hdrop, strMk_data]
      exact hb
    apply List.any_eq_true.mpr
    exact ⟨pattern, hmem, by simp [hslash, hns, hml]⟩
  · obtain ⟨q, hq⟩ : ∃ q, pattern.data = q ++ "/".data :=
      ⟨dropSuffixList pattern.data 1, endsList_decomp hsl⟩
    have hcs : containsSlash (pattern ++ "**") = true := by
      unfold containsSlash
      rw [String.data_append, hq]
      simp
    have he : jsEndsWith (pattern ++ "**") "/**" = true := by
      unfold jsEndsWith
      rw [String.data_append, hq, List.append_assoc]
      exact endsList_append q ("/".data ++ "**".data)
    have hdrop : dropSuffixList (pattern ++ "**").data 3 = q := by
      rw [String.data_append, hq, List.append_assoc]
      exact dropSuffixList_append q ("/".data ++ "**".data)
    have hml : matchLiteralPattern (pattern ++ "**") path = true := by
      unfold matchLiteralPattern
      rw [if_pos he, hdrop]
      unfold jsStartsWith
      have hdata : (String.mk q ++ "/").data = pattern.data := by
        rw [String.data_append]
        exact hq.symm
      rw [hdata]
      exact hb
    apply List.any_eq_true.mpr
    exact ⟨pattern, hmem, by simp [hsl, hcs, hml]⟩
  · simp [fileAction, hf, hd, ha, hex]

/-- Witness for C6: the root-level pattern `drafts` excludes a file two levels
below `drafts/`, and the per-file loop drops it. -/
theorem C6_directory_excludes_witness :
    isExcludedFile ["drafts"] "drafts/a/b.md" = true ∧
    fileAction "assets" "components" true ["drafts"] "b.md" "drafts/a/b.md"
      = FileAction.skipExcluded :=
  ⟨(C6_directory_excludes ["drafts"] "drafts" "drafts/a/b.md" (by simp)).1
      (by decide) (by decide),
   (C6_directory_excludes ["drafts"] "drafts" "drafts/a/b.md" (by simp)).2.2
      "assets" "components" true "b.md"
      ((C6_directory_excludes ["drafts"] "drafts" "drafts/a/b.md" (by simp)).1
        (by decide) (by decide))
      (by decide) (by decide) (by decide)⟩

/-! ## C8: plain documents and body preservation -/

/-- Counterexample to C8 as stated: a plain document whose body starts with an
H1 heading is classified markdown, yet the written output is not byte-identical
to the input outside the metadata block — the frontmatter merge always removes
the first H1 line (used for title synthesis) and trims leading blank lines, so
the output no longer ends with the original body. -/
theorem C8_counterexample :
    detectFormat ⟨none, [Segment.text "# T\n\nbody"]⟩ = MdFormat.markdown ∧
    (transformMarkdownSyntaxModel "doc.md" [] "doc.md" false
        ⟨none, [Segment.text "# T\n\nbody"]⟩).1 = "---\ntitle: T\n---\n\nbody" ∧
    jsEndsWith ((transformMarkdownSyntaxModel "doc.md" [] "doc.md" false
        ⟨none, [Segment.text "# T\n\nbody"]⟩).1) "# T\n\nbody" = false := by
  refine ⟨by decide, by decide, by decide⟩

/-- C8 (amended): a document with no component-embedding and no structured-tag
syntax (and no README-link token, on which the link rewriter would re-serialize
the document) is classified plain, needs no conversion, and its written output
is the input body unchanged except for the replaced frontmatter block, the
removal of the first H1 line and the trimming of leading whitespace. -/
theorem C8_plain_body_transform (configs : List ConfigNode) (relPath destName : String)
    (isUnlisted : Bool) (d : DocModel)
    (hguard : readmeGuard (contentRaw d) = false)
    (hdetect : detectFormat d = .markdown)
    (hconv : matchesExtList CONVERTIBLE_EXTS destName = true)
    (hnm : jsIncludes destName "node_modules" = false)
    (hmdoc : jsEndsWith destName ".mdoc" = false)
    (hmdx : jsEndsWith destName ".mdx" = false) :
    (transformMarkdownSyntaxModel destName configs relPath isUnlisted d).2 = .markdown ∧
    (transformMarkdownSyntaxModel destName configs relPath isUnlisted d).1 =
      "---\n" ++
        stringifyFrontmatter (mergedFrontmatterFor configs relPath (d.fm.getD [])
          false isUnlisted (getTitle relPath (contentRaw d))) ++
        "---\n\n" ++ trimLeftStr (removeFirstH1 (bodyRaw d.body)) := by
  have hfmt : getTargetFormat destName d = (.markdown, false) := by
    simp [getTargetFormat, hconv, hnm, hdetect]
  constructor <;>
    simp [transformMarkdownSyntaxModel, transformReadmeLinksDoc, hguard, hfmt,
      hmdoc, hmdx, updateContentFrontmatter]

/-- Witness for C8: a plain two-paragraph document with no H1 and no
frontmatter comes out as the synthesized metadata block followed by the body
verbatim. -/
theorem C8_plain_body_transform_witness :
    (transformMarkdownSyntaxModel "g.md" [] "g.md" false
        ⟨none, [Segment.text "hello\n\nworld"]⟩).2 = MdFormat.markdown ∧
    (transformMarkdownSyntaxModel "g.md" [] "g.md" false
        ⟨none, [Segment.text "hello\n\nworld"]⟩).1 =
      "---\n" ++
        stringifyFrontmatter (mergedFrontmatterFor [] "g.md" ((none : Option Obj).getD [])
          false false (getTitle "g.md" (contentRaw ⟨none, [Segment.text "hello\n\nworld"]⟩))) ++
        "---\n\n" ++
        trimLeftStr (removeFirstH1 (bodyRaw [Segment.text "hello\n\nworld"])) :=
  C8_plain_body_transform [] "g.md" "g.md" false ⟨none, [Segment.text "hello\n\nworld"]⟩
    (by decide) (by decide) (by decide) (by decide) (by decide) (by decide)

/-! ## C9: stylesheet ordering -/

theorem charToNat_inj : Function.Injective Char.toNat := by
  intro a b h
  have := congrArg Char.ofNat h
  rwa [Char.ofNat_toNat, Char.ofNat_toNat] at this

theorem codeUnits_inj : Function.Injective codeUnits := by
  intro a b h
  exact congrArg String.mk (List.map_injective_iff.mpr charToNat_inj h)

instance : IsTotal String locLe := ⟨fun a b => le_total (cssKey a) (cssKey b)⟩

instance : IsTrans String locLe := ⟨fun _ _ _ h1 h2 => le_trans h1 h2⟩

instance : IsAntisymm String locLe :=
  ⟨fun _ _ h1 h2 =>
    codeUnits_inj
      (congrArg (fun k => OrderDual.ofDual (ofLex k).2) (le_antisymm h1 h2))⟩

/-- Counterexample to C9 as stated: the sort comparator is `localeCompare`,
not plain lexicographic comparison — on `B.css` and `a.css` collation puts
`a.css` first while code-unit order puts `B.css` first, so the discovered list
differs from the lexicographically sorted list. -/
theorem C9_counterexample :
    discoverCss ["B.css", "a.css"] = ["a.css", "B.css"] ∧
    sortLexicographic ["B.css", "a.css"] = ["B.css", "a.css"] ∧
    discoverCss ["B.css", "a.css"] ≠ sortLexicographic ["B.css", "a.css"] := by
  refine ⟨by decide, by decide, by decide⟩

/-- C9 (amended): the stylesheet list is sorted by the locale comparator
(case-insensitive primary order with lowercase-first tie-breaking on
basic-Latin names); the comparator is a strict total order, so the output is
deterministic and independent of filesystem enumeration order, and discovering
`b.css` then `a.css` yields `[a.css, b.css]`. -/
theorem C9_sorted_deterministic :
    (∀ l₁ l₂ : List String, l₁.Perm l₂ → discoverCss l₁ = discoverCss l₂) ∧
    (∀ l : List String, (discoverCss l).Sorted locLe) ∧
    discoverCss ["b.css", "a.css"] = ["a.css", "b.css"] := by
  refine ⟨fun l₁ l₂ hperm => ?_, fun l => List.sorted_insertionSort _ _, by decide⟩
  unfold discoverCss
  exact List.eq_of_perm_of_sorted
    ((List.perm_insertionSort _ _).trans
      ((hperm.filter _).trans (List.perm_insertionSort _ _).symm))
    (List.sorted_insertionSort _ _) (List.sorted_insertionSort _ _)

/-- Witness for C9: the two enumeration orders of the scenario produce the same
discovered list. -/
theorem C9_sorted_deterministic_witness :
    discoverCss ["b.css", "a.css"] = discoverCss ["a.css", "b.css"] :=
  C9_sorted_deterministic.1 ["b.css", "a.css"] ["a.css", "b.css"]
    (List.Perm.swap "a.css" "b.css" [])

/-! ## C10: slug computation -/

/-- Counterexample to C10 as stated: the extension strip happens before
lower-casing and only for the lowercase `.md`/`.mdx`/`.mdoc` spellings, so for
the pass-through destination `Guide.MDX` the slug keeps its format extension
(`guide.mdx`), unlike the claim's "lower-cased final relative path with its
format extension removed" (`guide`); the pass-through `.markdoc` extension is
likewise kept. -/
theorem C10_counterexample :
    slugOf "Guide.MDX" = "guide.mdx" ∧
    slugPerSpec "Guide.MDX" = "guide" ∧
    slugOf "Guide.MDX" ≠ slugPerSpec "Guide.MDX" ∧
    slugOf "notes.markdoc" = "notes.markdoc" := by
  refine ⟨by decide, by decide, by decide, by decide⟩

/-- C10 (amended): the slug strips a trailing lowercase `.md`/`.mdx`/`.mdoc`
extension, then a trailing `/index` segment (only when preceded by a slash),
then lower-cases: a root `index.<ext>` file gets the slug `index`, not the
empty string, and a nested `dir/index.<ext>` gets the lower-cased `dir`. -/
theorem C10_slug_rules (dir ext : String) (he : ext ∈ [".md", ".mdx", ".mdoc"]) :
    slugOf ("index" ++ ext) = "index" ∧
    slugOf (dir ++ "/index" ++ ext) = toLowerStr dir := by
  have hstrip : dropCanonExtCS (dir ++ "/index" ++ ext).data = dir.data ++ "/index".data := by
    have hdata : (dir ++ "/index" ++ ext).data = (dir.data ++ "/index".data) ++ ext.data := by
      rw [String.data_append, String.data_append, List.append_assoc]
    fin_cases he
    · unfold dropCanonExtCS
      rw [hdata]
      rw [if_pos (endsList_append _ _)]
      exact dropSuffixList_append _ _
    · unfold dropCanonExtCS
      rw [hdata]
      rw [if_neg ?hmd, if_pos (endsList_append _ _)]
      case hmd =>
        rw [List.append_assoc, endsList_append_of_le _ _ _ (by decide)]
        decide
      exact dropSuffixList_append _ _
    · unfold dropCanonExtCS
      rw [hdata]
      rw [if_neg ?hmd2, if_neg ?hmdx2, if_pos (endsList_append _ _)]
      case hmd2 =>
        rw [List.append_assoc, endsList_append_of_le _ _ _ (by decide)]
        decide
      case hmdx2 =>
        rw [List.append_assoc, endsList_append_of_le _ _ _ (by decide)]
        decide
      exact dropSuffixList_append _ _
  constructor
  · fin_cases he <;> decide
  · unfold slugOf
    rw [hstrip]
    unfold dropIndexSuffix
    rw [if_pos (endsList_append _ _)]
    have h6 : dropSuffixList (dir.data ++ "/index".data) 6 = dir.data :=
      dropSuffixList_append dir.data "/index".data
    rw [h6]
    rfl

/-- Witness for C10: a nested `Docs/index.md` receives the slug `docs`, and a
root `index.md` receives the slug `index`. -/
theorem C10_slug_rules_witness :
    slugOf ("index" ++ ".md") = "index" ∧
    slugOf ("Docs" ++ "/index" ++ ".md") = toLowerStr "Docs" :=
  C10_slug_rules "Docs" ".md" (by decide)

end Docfu
